import Mathlib

/-!
Verification of the graph-validation module of a data-pipeline
configuration checker (src/config/graph.rs): node/edge model, backward
path enumeration with cycle detection, pairwise data-kind type checking,
and input-reference validation.

Modelling conventions:
* `ComponentKey` is a plain string; `ComponentKey.join` models
  `ComponentKey::join` producing the dotted `component.port` form.
* The node table (a `HashMap` in the source) is an association list with
  `insertNode` modelling `HashMap::insert` (replace on an existing key,
  append otherwise); iteration order is the list order, a determinization
  of the source's unspecified hash-map order.
* The recursive backward DFS `paths_rec` is embedded with an explicit
  fuel argument; `Graph.paths` supplies `edges.length + 2` fuel, which is
  proved sufficient below (`pathsRec_fuel_sufficient`), so the `none`
  (out-of-fuel) branch is unreachable from the public entry points.
* A Rust `panic!` / `unreachable!` is modelled as the `none` result of
  an `Option`-valued function.
-/

namespace VectorCfg

/-- Component identifiers; a compound key `a.b` names a transform's port. -/
abbrev ComponentKey := String

/-- `ComponentKey::join`: build the dotted `component.port` key. -/
def ComponentKey.join (k : ComponentKey) (n : String) : ComponentKey :=
  k ++ "." ++ n

/-- The `DataType` enumeration: `Log`, `Metric` and the wildcard `Any`. -/
inductive DataType where
  | log
  | metric
  | any
  deriving DecidableEq, Repr

/-- The `{:?}` (Debug) rendering of a `DataType`, used in diagnostics. -/
def DataType.debugStr : DataType → String
  | .log => "Log"
  | .metric => "Metric"
  | .any => "Any"

/-- The `Node` enum: sources, transforms (with named output ports), sinks. -/
inductive Node where
  | source (ty : DataType)
  | transform (in_ty : DataType) (out_ty : DataType) (named_outputs : List String)
  | sink (ty : DataType)
  deriving DecidableEq, Repr

/-- An edge `to consumes from`, as in `struct Edge`. -/
structure Edge where
  «from» : ComponentKey
  «to» : ComponentKey
  deriving DecidableEq, Repr

/-- The graph: node table (association list for the source's `HashMap`)
and edge sequence. -/
structure Graph where
  nodes : List (ComponentKey × Node)
  edges : List Edge
  deriving DecidableEq, Repr

/-- `Graph::default()`. -/
def Graph.empty : Graph := ⟨[], []⟩

/-- First-match lookup in the node table (`HashMap::get`). -/
def lookupNode : List (ComponentKey × Node) → ComponentKey → Option Node
  | [], _ => none
  | p :: rest, k => if p.1 = k then some p.2 else lookupNode rest k

/-- `HashMap::insert`: replace the value at an existing key, else append. -/
def insertNode (nodes : List (ComponentKey × Node)) (k : ComponentKey) (v : Node) :
    List (ComponentKey × Node) :=
  if nodes.any (fun p => p.1 = k) then
    nodes.map (fun p => if p.1 = k then (p.1, v) else p)
  else
    nodes ++ [(k, v)]

/-- In-place update of the entry at a key (`HashMap::get_mut` then write). -/
def updateFirst : List (ComponentKey × Node) → ComponentKey → Node → List (ComponentKey × Node)
  | [], _, _ => []
  | p :: rest, k, v => if p.1 = k then (p.1, v) :: rest else p :: updateFirst rest k v

/-- `Graph::add_source`. -/
def Graph.add_source (g : Graph) (id : ComponentKey) (ty : DataType) : Graph :=
  { g with nodes := insertNode g.nodes id (Node.source ty) }

/-- `Graph::add_transform`: insert the node (empty port list), one edge per input. -/
def Graph.add_transform (g : Graph) (id : ComponentKey) (in_ty out_ty : DataType)
    (inputs : List ComponentKey) : Graph :=
  { nodes := insertNode g.nodes id (Node.transform in_ty out_ty []),
    edges := g.edges ++ inputs.map (fun f => Edge.mk f id) }

/-- `Graph::add_transform_output`: push a port name onto an existing
transform; `none` models the `panic!("invalid transform")`. -/
def Graph.add_transform_output (g : Graph) (id : ComponentKey) (name : String) :
    Option Graph :=
  match lookupNode g.nodes id with
  | some (Node.transform i o outs) =>
      some { g with nodes := updateFirst g.nodes id (Node.transform i o (outs ++ [name])) }
  | _ => none

/-- `Graph::add_sink`. -/
def Graph.add_sink (g : Graph) (id : ComponentKey) (ty : DataType)
    (inputs : List ComponentKey) : Graph :=
  { nodes := insertNode g.nodes id (Node.sink ty),
    edges := g.edges ++ inputs.map (fun f => Edge.mk f id) }

/-- The cycle diagnostic built in `paths_rec`. -/
def cycleMsg (segment : List ComponentKey) : String :=
  "Cyclic dependency detected in the chain [ " ++ String.intercalate " -> " segment ++ " ]"

/-- Index of the first occurrence (`Iterator::position`); length if absent. -/
def firstIdx : List ComponentKey → ComponentKey → Nat
  | [], _ => 0
  | a :: rest, x => if a = x then 0 else firstIdx rest x + 1

/-- The loop of `paths_rec` over a node's inputs, parametrized by the
recursive call `rec` (applied one fuel level down): the first error is
returned at once, otherwise the enumerated paths are concatenated. -/
def pathsRecList
    (rec : ComponentKey → List ComponentKey →
      Option (Except String (List (List ComponentKey)))) :
    List ComponentKey → List ComponentKey →
      Option (Except String (List (List ComponentKey)))
  | [], _ => some (Except.ok [])
  | input :: rest, path =>
    match rec input path with
    | none => none
    | some (Except.error e) => some (Except.error e)
    | some (Except.ok ps) =>
      match pathsRecList rec rest path with
      | none => none
      | some (Except.error e) => some (Except.error e)
      | some (Except.ok ps2) => some (Except.ok (ps ++ ps2))

/-- `paths_rec`: backward DFS from `node` with the in-progress `path`
(sink first).  On revisiting a node of `path` it fails with the cycle
diagnostic for the sub-chain from the first occurrence, reversed to
source-to-sink order.  A source or an unknown key ends one path.  `fuel`
bounds the recursion depth (`none` is the out-of-fuel case, proved
unreachable below); recursion on fuel is by `Nat.rec` so that terms
compute by reduction. -/
def pathsRec (g : Graph) (fuel : Nat) : ComponentKey → List ComponentKey →
    Option (Except String (List (List ComponentKey))) :=
  Nat.rec (motive := fun _ => ComponentKey → List ComponentKey →
      Option (Except String (List (List ComponentKey))))
    (fun _ _ => none)
    (fun _ ih node path =>
      if node ∈ path then
        some (Except.error (cycleMsg ((path.drop (firstIdx path node) ++ [node]).reverse)))
      else
        match lookupNode g.nodes node with
        | some (Node.source _) | none => some (Except.ok [(path ++ [node]).reverse])
        | some _ =>
            pathsRecList ih
              ((g.edges.filter (fun e => e.«to» = node)).map (fun e => e.«from»))
              (path ++ [node]))
    fuel

/-- The input loop at one fuel level down, as called by `pathsRec`. -/
def pathsRecInputs (g : Graph) (fuel : Nat) :
    List ComponentKey → List ComponentKey →
      Option (Except String (List (List ComponentKey))) :=
  pathsRecList (pathsRec g fuel)

/-- Keys of the sink nodes, in node-table order. -/
def Graph.sinkKeys (g : Graph) : List ComponentKey :=
  g.nodes.filterMap (fun p => match p.2 with | Node.sink _ => some p.1 | _ => none)

/-- The fuel `Graph.paths` hands to `pathsRec` (proved sufficient below). -/
def Graph.fuel (g : Graph) : Nat := g.edges.length + 2

/-- The sink loop of `Graph::paths`: collect each sink-rooted traversal's
error (if any) and otherwise its paths, in sink order. -/
def Graph.pathsAux (g : Graph) : List ComponentKey →
    Option (List String × List (List ComponentKey))
  | [] => some ([], [])
  | s :: rest =>
    match pathsRec g g.fuel s [] with
    | none => none
    | some r =>
      match g.pathsAux rest with
      | none => none
      | some (errs, ps) =>
        match r with
        | Except.error e => some (e :: errs, ps)
        | Except.ok ps1 => some (errs, ps1 ++ ps)

/-- Remove consecutive duplicates (`Vec::dedup`). -/
def dedupConsec : List String → List String
  | [] => []
  | [a] => [a]
  | a :: b :: rest =>
    if a = b then dedupConsec (b :: rest) else a :: dedupConsec (b :: rest)

/-- `errors.sort(); errors.dedup();` -/
def sortDedup (l : List String) : List String :=
  dedupConsec (l.insertionSort (· ≤ ·))

/-- `Graph::paths`: enumerate all sink-rooted paths; if any traversal
failed, return the sorted and deduplicated cycle messages instead. -/
def Graph.paths (g : Graph) : Option (Except (List String) (List (List ComponentKey))) :=
  match g.pathsAux g.sinkKeys with
  | none => none
  | some (errs, ps) =>
    if errs = [] then some (Except.ok ps) else some (Except.error (sortDedup errs))

/-- The inline mismatch condition of `Graph::typecheck`. -/
def kindMismatch (t1 t2 : DataType) : Bool :=
  decide (t1 ≠ t2) && decide (t1 ≠ DataType.any) && decide (t2 ≠ DataType.any)

/-- The type-mismatch diagnostic of `Graph::typecheck`. -/
def mismatchMsg (x : ComponentKey) (t1 : DataType) (y : ComponentKey) (t2 : DataType) :
    String :=
  "Data type mismatch between " ++ x ++ " (" ++ t1.debugStr ++ ") and " ++ y ++
    " (" ++ t2.debugStr ++ ")"

/-- One adjacent pair of `Graph::typecheck`: skip if either key is
unknown, compare producer and consumer kinds otherwise; `none` models the
`unreachable!` arm for a sink producer or a source consumer. -/
def Graph.checkPair (g : Graph) (x y : ComponentKey) : Option (List String) :=
  match lookupNode g.nodes x, lookupNode g.nodes y with
  | none, _ => some []
  | _, none => some []
  | some nx, some ny =>
    match nx, ny with
    | Node.source t1, Node.sink t2 =>
        some (if kindMismatch t1 t2 then [mismatchMsg x t1 y t2] else [])
    | Node.source t1, Node.transform t2 _ _ =>
        some (if kindMismatch t1 t2 then [mismatchMsg x t1 y t2] else [])
    | Node.transform _ t1 _, Node.transform t2 _ _ =>
        some (if kindMismatch t1 t2 then [mismatchMsg x t1 y t2] else [])
    | Node.transform _ t1 _, Node.sink t2 =>
        some (if kindMismatch t1 t2 then [mismatchMsg x t1 y t2] else [])
    | Node.sink _, _ => none
    | _, Node.source _ => none

/-- The adjacent pairs of a path (`path.windows(2)`). -/
def pathPairs (p : List ComponentKey) : List (ComponentKey × ComponentKey) :=
  p.zip p.tail

/-- Collect the mismatch messages of a pair list, in order. -/
def Graph.pairErrors (g : Graph) : List (ComponentKey × ComponentKey) →
    Option (List String)
  | [] => some []
  | (x, y) :: rest =>
    match g.checkPair x y, g.pairErrors rest with
    | some ms, some rest2 => some (ms ++ rest2)
    | _, _ => none

/-- `Graph::typecheck`: enumerate paths (propagating their failure), then
check every adjacent pair of every path; errors are sorted and
deduplicated, an empty collection is success. -/
def Graph.typecheck (g : Graph) : Option (Except (List String) Unit) :=
  match g.paths with
  | none => none
  | some (Except.error es) => some (Except.error es)
  | some (Except.ok ps) =>
    match g.pairErrors (ps.flatMap pathPairs) with
    | none => none
    | some errs =>
      if errs = [] then some (Except.ok ())
      else some (Except.error (sortDedup errs))

/-- The valid output identifiers of `Graph::check_inputs`: sources' keys,
transforms' keys and one dotted key per named port; sinks contribute
nothing. -/
def Graph.validInputs (g : Graph) : List ComponentKey :=
  g.nodes.flatMap (fun p =>
    match p.2 with
    | Node.sink _ => []
    | Node.source _ => [p.1]
    | Node.transform _ _ outs => p.1 :: outs.map (fun n => ComponentKey.join p.1 n))

/-- The invalid-input diagnostic of `Graph::check_inputs`. -/
def inputErrorMsg (f : ComponentKey) (role : String) (t : ComponentKey) : String :=
  "Input \"" ++ f ++ "\" for " ++ role ++ " \"" ++ t ++ "\" doesn't match any components."

/-- The edge loop of `Graph::check_inputs`; `none` models the
`panic!("only transforms and sinks have inputs")`. -/
def Graph.checkInputsAux (g : Graph) : List Edge → Option (List String)
  | [] => some []
  | e :: rest =>
    if e.«from» ∈ g.validInputs then g.checkInputsAux rest
    else
      match lookupNode g.nodes e.«to» with
      | some (Node.transform _ _ _) =>
          (g.checkInputsAux rest).map (fun ms => inputErrorMsg e.«from» "transform" e.«to» :: ms)
      | some (Node.sink _) =>
          (g.checkInputsAux rest).map (fun ms => inputErrorMsg e.«from» "sink" e.«to» :: ms)
      | _ => none

/-- `Graph::check_inputs`: report edges whose `from` is no valid output,
in edge order, without deduplication. -/
def Graph.check_inputs (g : Graph) : Option (Except (List String) Unit) :=
  match g.checkInputsAux g.edges with
  | none => none
  | some errs =>
    if errs = [] then some (Except.ok ()) else some (Except.error errs)

/-- The `from` endpoints of all edges, in edge order. -/
def Graph.fromKeys (g : Graph) : List ComponentKey :=
  g.edges.map (fun e => e.«from»)

/-- Whether a key resolves to a node that declares inputs (a transform or
a sink): the node shapes `typecheck`'s traversal recurses into. -/
def isInputNodeB (g : Graph) (k : ComponentKey) : Bool :=
  match lookupNode g.nodes k with
  | some (Node.transform _ _ _) => true
  | some (Node.sink _) => true
  | _ => false

/-- Whether a node value is a sink. -/
def isSinkNodeB : Node → Bool
  | Node.sink _ => true
  | _ => false

/-- Whether a key resolves to a sink node. -/
def isSinkKeyB (g : Graph) (k : ComponentKey) : Bool :=
  match lookupNode g.nodes k with
  | some (Node.sink _) => true
  | _ => false

/-- One step of the edge relation: some edge goes from `a` to `b`. -/
def stepB (g : Graph) (a b : ComponentKey) : Bool :=
  g.edges.any (fun e => decide (e.«from» = a) && decide (e.«to» = b))

/-- Every key occurring as an edge endpoint. -/
def keysOf (g : Graph) : List ComponentKey :=
  g.edges.map (fun e => e.«from») ++ g.edges.map (fun e => e.«to»)

/-- `reachInB g n a b`: a directed edge path from `a` to `b` of at most
`n + 1` steps exists. -/
def reachInB (g : Graph) : Nat → ComponentKey → ComponentKey → Bool
  | 0, a, b => stepB g a b
  | n + 1, a, b =>
    stepB g a b || (keysOf g).any (fun m => stepB g a m && reachInB g n m b)

/-- Acyclicity of the edge relation: no endpoint reaches itself.  (Any
cycle contains a simple cycle, whose length is at most the number of
edges, so the step bound `edges.length` is exhaustive.) -/
def acyclicB (g : Graph) : Bool :=
  !(keysOf g).any (fun k => reachInB g g.edges.length k k)

/-- Modelled from the spec (§4.4): the set of valid output identifiers —
every source's plain key, every transform's plain key plus one compound
key per declared named port; sinks contribute nothing.  Stated as a
membership test, to be compared with `Graph.validInputs`. -/
def validOutputsSpecB (g : Graph) (k : ComponentKey) : Bool :=
  g.nodes.any (fun p =>
    match p.2 with
    | Node.source _ => decide (p.1 = k)
    | Node.transform _ _ outs =>
        decide (p.1 = k) || outs.any (fun n => decide (k = ComponentKey.join p.1 n))
    | Node.sink _ => false)

/-- The diagnostic role of an edge's consumer, by its node type. -/
def roleOf (g : Graph) (k : ComponentKey) : Option String :=
  match lookupNode g.nodes k with
  | some (Node.transform _ _ _) => some "transform"
  | some (Node.sink _) => some "sink"
  | _ => none

/-- Modelled from the spec (§4.4): the invalid-input diagnostics, one per
offending edge, in edge declaration order, not deduplicated. -/
def inputErrorsSpec (g : Graph) : List String :=
  g.edges.filterMap (fun e =>
    if validOutputsSpecB g e.«from» then none
    else (roleOf g e.«to»).map (fun r => inputErrorMsg e.«from» r e.«to»))

/-- The three-node cycle `A → B → C → A` (edges: B's input is A, C's
input is B, A's input is C) with one sink attached to `attach`. -/
def gC1 (attach : ComponentKey) : Graph :=
  (((Graph.empty.add_transform "B" DataType.log DataType.log
      ["A"]).add_transform "C" DataType.log DataType.log
      ["B"]).add_transform "A" DataType.log DataType.log
      ["C"]).add_sink "S" DataType.log [attach]

/-- The repository's first cycle test graph: `one → two → three → one`,
with `one` also fed by the source `in` and the sink `out` on `three`. -/
def gCyc : Graph :=
  ((((Graph.empty.add_source "in" DataType.log).add_transform "one"
      DataType.log DataType.log ["in", "three"]).add_transform "two"
      DataType.log DataType.log ["one"]).add_transform "three"
      DataType.log DataType.log ["two"]).add_sink "out" DataType.log ["three"]

/-- Source `in` of kind Log feeding sink `out` of kind Metric. -/
def gLM : Graph :=
  (Graph.empty.add_source "in" DataType.log).add_sink "out" DataType.metric ["in"]

/-- An acyclic graph in which a sink (`s1`) is declared as another sink's
input: the typecheck pairing `(Sink, _)` believed impossible. -/
def gSinkChain : Graph :=
  ((Graph.empty.add_source "src" DataType.log).add_sink "s1" DataType.log
      ["src"]).add_sink "s2" DataType.log ["s1"]

/-- A self-looping transform with no sink anywhere in the graph. -/
def gSelfFree : Graph :=
  Graph.empty.add_transform "X" DataType.log DataType.log ["X"]

/-- The repository's self-loop scenario, with symbolic keys: a source
`x`, overwritten by a transform `x` whose input is `x`, and a sink `out`
whose input is `x`. -/
def gSelf (x out : ComponentKey) : Graph :=
  ((Graph.empty.add_source x DataType.log).add_transform x DataType.log DataType.log
      [x]).add_sink out DataType.log [x]

/-- A two-node transform cycle `A ↔ B` with no sink node. -/
def gNoSink : Graph :=
  (Graph.empty.add_transform "A" DataType.log DataType.log
      ["B"]).add_transform "B" DataType.log DataType.log ["A"]

/-- The cycle `A ↔ B` plus an unrelated source-to-sink chain: the cycle
is not backward-reachable from the only sink. -/
def gCycUnreach : Graph :=
  ((gNoSink.add_source "src" DataType.log).add_sink "out" DataType.log ["src"])

/-- The repository's named-output test graph: transform `log_to_log`
with port `errors`, a good sink, a port-fed sink, and a sink naming the
unregistered port `not_errors`. -/
def gPorts : Graph :=
  let g1 := (Graph.empty.add_source "log_source" DataType.log).add_transform
      "log_to_log" DataType.log DataType.log ["log_source"]
  let g2 := (g1.add_transform_output "log_to_log" "errors").getD Graph.empty
  ((g2.add_sink "good_log_sink" DataType.log ["log_to_log"]).add_sink
      "errored_log_sink" DataType.log ["log_to_log.errors"]).add_sink
      "bad_log_sink" DataType.log ["log_to_log.not_errors"]

/-- A small graph with one transform, for exercising port registration. -/
def gT : Graph :=
  (Graph.empty.add_source "s" DataType.log).add_transform "t" DataType.log
      DataType.log ["s"]

/-- A named-port edge with deliberately mismatched kinds: transform `t`
outputs Log, the sink consuming `t.errors` wants Metric. -/
def gPortMismatch : Graph :=
  let g1 := (Graph.empty.add_source "src" DataType.log).add_transform "t"
      DataType.log DataType.log ["src"]
  let g2 := (g1.add_transform_output "t" "errors").getD Graph.empty
  g2.add_sink "out" DataType.metric ["t.errors"]

/-- Consecutive nodes `a, b` of an enumerated (source-to-sink) path: some
edge goes from `a` to `b`, and `b` resolves to a transform or sink (the
only node shapes the traversal recurses from). -/
def edgeStep (g : Graph) (a b : ComponentKey) : Prop :=
  (∃ e ∈ g.edges, e.«from» = a ∧ e.«to» = b) ∧ isInputNodeB g b = true

/-! Equations of `pathsRec` (recursion by `Nat.rec`, so both hold by `rfl`). -/

theorem pathsRec_zero (g : Graph) (node : ComponentKey) (path : List ComponentKey) :
    pathsRec g 0 node path = none := rfl

theorem pathsRec_succ (g : Graph) (fuel : Nat) (node : ComponentKey)
    (path : List ComponentKey) :
    pathsRec g (fuel + 1) node path =
      (if node ∈ path then
        some (Except.error (cycleMsg ((path.drop (firstIdx path node) ++ [node]).reverse)))
      else
        match lookupNode g.nodes node with
        | some (Node.source _) | none => some (Except.ok [(path ++ [node]).reverse])
        | some _ =>
            pathsRecInputs g fuel
              ((g.edges.filter (fun e => e.«to» = node)).map (fun e => e.«from»))
              (path ++ [node])) := rfl

/-! Properties of `sortDedup` (sort, then remove consecutive duplicates). -/

theorem mem_dedupConsec : ∀ (l : List String) (a : String), a ∈ dedupConsec l ↔ a ∈ l := by
  intro l
  induction l with
  | nil => simp [dedupConsec]
  | cons x xs ih =>
    cases xs with
    | nil => simp [dedupConsec]
    | cons y ys =>
      intro a
      by_cases h : x = y
      · subst h
        have e : dedupConsec (x :: x :: ys) = dedupConsec (x :: ys) := by
          rw [dedupConsec, if_pos rfl]
        rw [e, ih a, List.mem_cons, List.mem_cons, List.mem_cons]
        tauto
      · simp only [dedupConsec, if_neg h, List.mem_cons, ih a]

theorem dedupConsec_ne_nil : ∀ (l : List String), l ≠ [] → dedupConsec l ≠ [] := by
  intro l
  induction l with
  | nil => intro h; exact absurd rfl h
  | cons x xs ih =>
    cases xs with
    | nil => intro _; simp [dedupConsec]
    | cons y ys =>
      intro _
      by_cases h : x = y
      · simpa only [dedupConsec, if_pos h] using ih (by simp)
      · simp [dedupConsec, if_neg h]

theorem sorted_lt_dedupConsec :
    ∀ (l : List String), l.Sorted (· ≤ ·) → (dedupConsec l).Sorted (· < ·) := by
  intro l
  induction l with
  | nil => intro _; simp [dedupConsec]
  | cons x xs ih =>
    cases xs with
    | nil => intro _; simp [dedupConsec]
    | cons y ys =>
      intro hs
      rw [List.sorted_cons] at hs
      obtain ⟨hx, hs'⟩ := hs
      by_cases h : x = y
      · simpa only [dedupConsec, if_pos h] using ih hs'
      · rw [dedupConsec, if_neg h, List.sorted_cons]
        refine ⟨?_, ih hs'⟩
        intro b hb
        have hb' : b ∈ y :: ys := (mem_dedupConsec _ b).mp hb
        have hxb : x ≤ b := hx b hb'
        refine lt_of_le_of_ne hxb ?_
        intro hxeq
        rcases List.mem_cons.mp hb' with hby | hbys
        · exact h (hxeq.trans hby)
        · have hyb : y ≤ b := (List.sorted_cons.mp hs').1 b hbys
          exact h (le_antisymm (hx y (by simp)) (hxeq ▸ hyb))

theorem sortDedup_sorted (l : List String) : (sortDedup l).Sorted (· ≤ ·) := by
  have h := sorted_lt_dedupConsec _ (List.sorted_insertionSort (· ≤ ·) l)
  exact h.imp (fun hab => le_of_lt hab)

theorem sortDedup_nodup (l : List String) : (sortDedup l).Nodup := by
  have h := sorted_lt_dedupConsec _ (List.sorted_insertionSort (· ≤ ·) l)
  exact h.imp (fun hab => ne_of_lt hab)

theorem mem_sortDedup (l : List String) (a : String) : a ∈ sortDedup l ↔ a ∈ l :=
  (mem_dedupConsec _ a).trans (List.perm_insertionSort (· ≤ ·) l).mem_iff

theorem sortDedup_ne_nil (l : List String) (h : l ≠ []) : sortDedup l ≠ [] := by
  refine dedupConsec_ne_nil _ ?_
  intro hnil
  have hlen := (List.perm_insertionSort (· ≤ ·) l).length_eq
  rw [hnil] at hlen
  exact h (List.length_eq_zero.mp hlen.symm)

/-! Fuel sufficiency: the fuel supplied by `Graph.paths` never runs out,
because the in-progress path has no duplicates and every key on it past
the root is the `from` of some edge. -/

theorem pathsRecList_ne_none
    (rec : ComponentKey → List ComponentKey →
      Option (Except String (List (List ComponentKey)))) :
    ∀ (inputs : List ComponentKey) (path : List ComponentKey),
      (∀ i ∈ inputs, rec i path ≠ none) →
      pathsRecList rec inputs path ≠ none := by
  intro inputs
  induction inputs with
  | nil => intro path _; simp [pathsRecList]
  | cons i rest ih =>
    intro path h
    have hi := h i (List.mem_cons_self i rest)
    cases hrec : rec i path with
    | none => exact absurd hrec hi
    | some r =>
      have hrest := ih path (fun j hj => h j (List.mem_cons_of_mem _ hj))
      cases hrest2 : pathsRecList rec rest path with
      | none => exact absurd hrest2 hrest
      | some r2 =>
        cases r with
        | error e => simp [pathsRecList, hrec]
        | ok ps =>
          cases r2 with
          | error e2 => simp [pathsRecList, hrec, hrest2]
          | ok ps2 => simp [pathsRecList, hrec, hrest2]

theorem nodup_subset_length {t l : List ComponentKey} (hn : t.Nodup)
    (hsub : ∀ x ∈ t, x ∈ l) : t.length ≤ l.dedup.length := by
  have h1 : t.toFinset.card = t.length := List.toFinset_card_of_nodup hn
  have h2 : t.toFinset ⊆ l.toFinset := by
    intro x hx
    rw [List.mem_toFinset] at hx ⊢
    exact hsub x hx
  have h3 := Finset.card_le_card h2
  rw [h1, List.card_toFinset] at h3
  exact h3

theorem pathsRec_ne_none (g : Graph) :
    ∀ (fuel : Nat) (node : ComponentKey) (path : List ComponentKey),
      path.Nodup →
      (∀ k ∈ path.tail, k ∈ g.fromKeys) →
      (path ≠ [] → node ∈ g.fromKeys) →
      g.fromKeys.dedup.length + 2 ≤ fuel + path.length →
      pathsRec g fuel node path ≠ none := by
  intro fuel
  induction fuel with
  | zero =>
    intro node path hnd htail _ hb
    exfalso
    cases path with
    | nil => simp at hb
    | cons a t =>
      have h1 : t.length ≤ g.fromKeys.dedup.length :=
        nodup_subset_length hnd.of_cons (fun x hx => htail x hx)
      simp only [Nat.zero_add, List.length_cons] at hb
      omega
  | succ fuel ih =>
    intro node path hnd htail hnode hb
    by_cases hmem : node ∈ path
    · rw [pathsRec_succ, if_pos hmem]
      simp
    · cases hlook : lookupNode g.nodes node with
      | none =>
        rw [pathsRec_succ, if_neg hmem, hlook]
        simp
      | some n =>
        have harg : ∀ inp ∈ (g.edges.filter (fun e => e.«to» = node)).map
            (fun e => e.«from»), pathsRec g fuel inp (path ++ [node]) ≠ none := by
          intro inp hinp
          have hinpf : inp ∈ g.fromKeys := by
            rcases List.mem_map.mp hinp with ⟨e, he, rfl⟩
            exact List.mem_map_of_mem _ (List.mem_of_mem_filter he)
          apply ih
          · rw [List.nodup_append]
            refine ⟨hnd, List.nodup_singleton _, ?_⟩
            intro a ha hb'
            rw [List.mem_singleton] at hb'
            exact hmem (hb' ▸ ha)
          · cases path with
            | nil => intro k hk; simp at hk
            | cons a t =>
              intro k hk
              simp only [List.cons_append, List.tail_cons] at hk
              rcases List.mem_append.mp hk with h1 | h2
              · exact htail k (by simp [h1])
              · rw [List.mem_singleton] at h2
                exact h2 ▸ hnode (by simp)
          · intro _
            exact hinpf
          · rw [List.length_append, List.length_singleton]
            omega
        cases n with
        | source ty =>
          rw [pathsRec_succ, if_neg hmem, hlook]
          simp
        | transform i o outs =>
          have hres := pathsRecList_ne_none (pathsRec g fuel) _ _ harg
          rw [pathsRec_succ, if_neg hmem, hlook]
          exact hres
        | sink ty =>
          have hres := pathsRecList_ne_none (pathsRec g fuel) _ _ harg
          rw [pathsRec_succ, if_neg hmem, hlook]
          exact hres

theorem pathsAux_ne_none (g : Graph) : ∀ (sinks : List ComponentKey),
    g.pathsAux sinks ≠ none := by
  intro sinks
  induction sinks with
  | nil => simp [Graph.pathsAux]
  | cons s rest ih =>
    have hfuel : g.fromKeys.dedup.length + 2 ≤ g.fuel + ([] : List ComponentKey).length := by
      have h1 : g.fromKeys.dedup.length ≤ g.fromKeys.length :=
        (List.dedup_sublist g.fromKeys).length_le
      have h2 : g.fromKeys.length = g.edges.length := List.length_map _ _
      simp only [Graph.fuel, List.length_nil]
      omega
    have h := pathsRec_ne_none g g.fuel s [] (by simp) (by simp) (by simp) hfuel
    cases hr : pathsRec g g.fuel s [] with
    | none => exact absurd hr h
    | some r =>
      cases ha : g.pathsAux rest with
      | none => exact absurd ha ih
      | some pr =>
        cases r with
        | error e => simp [Graph.pathsAux, hr, ha]
        | ok ps => simp [Graph.pathsAux, hr, ha]

theorem paths_ne_none (g : Graph) : g.paths ≠ none := by
  cases ha : g.pathsAux g.sinkKeys with
  | none => exact absurd ha (pathsAux_ne_none g _)
  | some pr =>
    obtain ⟨errs, ps⟩ := pr
    by_cases he : errs = []
    · simp [Graph.paths, ha, he]
    · simp [Graph.paths, ha, he]

/-! The path-shape invariant: every adjacent pair of every enumerated
path is an `edgeStep`, so `typecheck` never meets a sink producer or a
source consumer on a path. -/

theorem pathsRecList_chain (g : Graph)
    (rec : ComponentKey → List ComponentKey →
      Option (Except String (List (List ComponentKey)))) :
    ∀ (inputs path : List ComponentKey) (ps : List (List ComponentKey)),
      pathsRecList rec inputs path = some (Except.ok ps) →
      (∀ i ∈ inputs, ∀ ps', rec i path = some (Except.ok ps') →
        ∀ p ∈ ps', List.Chain' (edgeStep g) p) →
      ∀ p ∈ ps, List.Chain' (edgeStep g) p := by
  intro inputs
  induction inputs with
  | nil =>
    intro path ps heq _
    simp only [pathsRecList, Option.some.injEq, Except.ok.injEq] at heq
    subst heq
    simp
  | cons i rest ih =>
    intro path ps heq hall
    cases hrec : rec i path with
    | none => rw [pathsRecList, hrec] at heq; exact absurd heq (by simp)
    | some r =>
      cases r with
      | error e => rw [pathsRecList, hrec] at heq; exact absurd heq (by simp)
      | ok ps1 =>
        cases hrest : pathsRecList rec rest path with
        | none => rw [pathsRecList, hrec, hrest] at heq; exact absurd heq (by simp)
        | some r2 =>
          cases r2 with
          | error e2 => rw [pathsRecList, hrec, hrest] at heq; exact absurd heq (by simp)
          | ok ps2 =>
            rw [pathsRecList, hrec, hrest] at heq
            simp only [Option.some.injEq, Except.ok.injEq] at heq
            subst heq
            intro p hp
            rcases List.mem_append.mp hp with h1 | h2
            · exact hall i (List.mem_cons_self i rest) ps1 hrec p h1
            · exact ih path ps2 hrest
                (fun j hj => hall j (List.mem_cons_of_mem _ hj)) p h2

theorem chain'_snoc_of_last (g : Graph) (path : List ComponentKey) (node : ComponentKey)
    (hchain : List.Chain' (fun a b => edgeStep g b a) path)
    (hlast : ∀ last, path.getLast? = some last → edgeStep g node last) :
    List.Chain' (fun a b => edgeStep g b a) (path ++ [node]) := by
  rw [List.chain'_append]
  refine ⟨hchain, List.chain'_singleton _, ?_⟩
  intro x hx y hy
  have hxl : path.getLast? = some x := hx
  have hyn : node = y := by simpa using hy
  exact hyn ▸ hlast x hxl

theorem pathsRec_chain (g : Graph) :
    ∀ (fuel : Nat) (node : ComponentKey) (path : List ComponentKey)
      (ps : List (List ComponentKey)),
      pathsRec g fuel node path = some (Except.ok ps) →
      List.Chain' (fun a b => edgeStep g b a) path →
      (∀ last, path.getLast? = some last → edgeStep g node last) →
      ∀ p ∈ ps, List.Chain' (edgeStep g) p := by
  intro fuel
  induction fuel with
  | zero =>
    intro node path ps heq _ _
    rw [pathsRec_zero] at heq
    exact absurd heq (by simp)
  | succ fuel ih =>
    intro node path ps heq hchain hlast
    by_cases hmem : node ∈ path
    · rw [pathsRec_succ, if_pos hmem] at heq
      exact absurd heq (by simp)
    · have hsnoc := chain'_snoc_of_last g path node hchain hlast
      have hrev : List.Chain' (edgeStep g) ((path ++ [node]).reverse) := by
        rw [List.chain'_reverse]
        exact hsnoc
      cases hlook : lookupNode g.nodes node with
      | none =>
        rw [pathsRec_succ, if_neg hmem, hlook] at heq
        simp only [Option.some.injEq, Except.ok.injEq] at heq
        subst heq
        intro p hp
        rw [List.mem_singleton] at hp
        exact hp ▸ hrev
      | some n =>
        have hinputs : ∀ inp ∈ (g.edges.filter (fun e => e.«to» = node)).map
            (fun e => e.«from»), isInputNodeB g node = true →
            ∀ ps', pathsRec g fuel inp (path ++ [node]) = some (Except.ok ps') →
            ∀ p ∈ ps', List.Chain' (edgeStep g) p := by
          intro inp hinp hnode ps' heq' p hp
          refine ih inp (path ++ [node]) ps' heq' hsnoc ?_ p hp
          intro last hl
          rw [List.getLast?_concat] at hl
          have : last = node := by simpa using hl.symm
          subst this
          constructor
          · rcases List.mem_map.mp hinp with ⟨e, he, rfl⟩
            have hef := List.mem_filter.mp he
            exact ⟨e, hef.1, rfl, by simpa using hef.2⟩
          · exact hnode
        cases n with
        | source ty =>
          rw [pathsRec_succ, if_neg hmem, hlook] at heq
          simp only [Option.some.injEq, Except.ok.injEq] at heq
          subst heq
          intro p hp
          rw [List.mem_singleton] at hp
          exact hp ▸ hrev
        | transform i o outs =>
          rw [pathsRec_succ, if_neg hmem, hlook] at heq
          refine pathsRecList_chain g (pathsRec g fuel) _ _ ps heq ?_
          intro inp hinp ps' heq' p hp
          exact hinputs inp hinp (by simp [isInputNodeB, hlook]) ps' heq' p hp
        | sink ty =>
          rw [pathsRec_succ, if_neg hmem, hlook] at heq
          refine pathsRecList_chain g (pathsRec g fuel) _ _ ps heq ?_
          intro inp hinp ps' heq' p hp
          exact hinputs inp hinp (by simp [isInputNodeB, hlook]) ps' heq' p hp

theorem pathsAux_chain (g : Graph) :
    ∀ (sinks : List ComponentKey) (errs : List String) (ps : List (List ComponentKey)),
      g.pathsAux sinks = some (errs, ps) →
      ∀ p ∈ ps, List.Chain' (edgeStep g) p := by
  intro sinks
  induction sinks with
  | nil =>
    intro errs ps heq
    simp only [Graph.pathsAux, Option.some.injEq, Prod.mk.injEq] at heq
    rw [← heq.2]
    simp
  | cons s rest ih =>
    intro errs ps heq
    cases hr : pathsRec g g.fuel s [] with
    | none => rw [Graph.pathsAux, hr] at heq; exact absurd heq (by simp)
    | some r =>
      cases ha : g.pathsAux rest with
      | none => rw [Graph.pathsAux, hr, ha] at heq; exact absurd heq (by simp)
      | some pr =>
        obtain ⟨errs2, ps2⟩ := pr
        cases r with
        | error e =>
          rw [Graph.pathsAux, hr, ha] at heq
          simp only [Option.some.injEq, Prod.mk.injEq] at heq
          rw [← heq.2]
          exact ih errs2 ps2 ha
        | ok ps1 =>
          rw [Graph.pathsAux, hr, ha] at heq
          simp only [Option.some.injEq, Prod.mk.injEq] at heq
          rw [← heq.2]
          intro p hp
          rcases List.mem_append.mp hp with h1 | h2
          · exact pathsRec_chain g g.fuel s [] ps1 hr (by simp) (by simp) p h1
          · exact ih errs2 ps2 ha p h2

theorem paths_chain (g : Graph) (ps : List (List ComponentKey))
    (hp : g.paths = some (Except.ok ps)) :
    ∀ p ∈ ps, List.Chain' (edgeStep g) p := by
  cases ha : g.pathsAux g.sinkKeys with
  | none => rw [Graph.paths, ha] at hp; exact absurd hp (by simp)
  | some pr =>
    obtain ⟨errs, ps0⟩ := pr
    rw [Graph.paths, ha] at hp
    dsimp only at hp
    by_cases he : errs = []
    · rw [if_pos he] at hp
      simp only [Option.some.injEq, Except.ok.injEq] at hp
      subst hp
      exact pathsAux_chain g _ errs ps0 ha
    · rw [if_neg he] at hp
      exact absurd hp (by simp)

theorem chain'_pathPairs {R : ComponentKey → ComponentKey → Prop} :
    ∀ (p : List ComponentKey), List.Chain' R p →
      ∀ x y, (x, y) ∈ pathPairs p → R x y := by
  intro p
  induction p with
  | nil => intro _ x y h; simp [pathPairs] at h
  | cons a t ih =>
    cases t with
    | nil => intro _ x y h; simp [pathPairs] at h
    | cons b t2 =>
      intro hch x y hxy
      rw [List.chain'_cons] at hch
      simp only [pathPairs, List.tail_cons, List.zip_cons_cons, List.mem_cons] at hxy
      rcases hxy with heq | hmem
      · rw [Prod.mk.injEq] at heq
        rw [heq.1, heq.2]
        exact hch.1
      · exact ih hch.2 x y hmem

theorem checkPair_ne_none (g : Graph) (x y : ComponentKey)
    (hstep : edgeStep g x y) (hfrom : isSinkKeyB g x = false) :
    g.checkPair x y ≠ none := by
  obtain ⟨_, hy⟩ := hstep
  cases hlx : lookupNode g.nodes x with
  | none => simp [Graph.checkPair, hlx]
  | some nx =>
    cases hly : lookupNode g.nodes y with
    | none => simp [Graph.checkPair, hlx, hly]
    | some ny =>
      cases ny with
      | source ty => simp [isInputNodeB, hly] at hy
      | transform i o outs =>
        cases nx with
        | source t1 => simp [Graph.checkPair, hlx, hly]
        | transform i1 o1 outs1 => simp [Graph.checkPair, hlx, hly]
        | sink t1 => simp [isSinkKeyB, hlx] at hfrom
      | sink ty =>
        cases nx with
        | source t1 => simp [Graph.checkPair, hlx, hly]
        | transform i1 o1 outs1 => simp [Graph.checkPair, hlx, hly]
        | sink t1 => simp [isSinkKeyB, hlx] at hfrom

theorem pairErrors_ne_none (g : Graph) :
    ∀ (prs : List (ComponentKey × ComponentKey)),
      (∀ x y, (x, y) ∈ prs → g.checkPair x y ≠ none) →
      g.pairErrors prs ≠ none := by
  intro prs
  induction prs with
  | nil => intro _; simp [Graph.pairErrors]
  | cons pr rest ih =>
    obtain ⟨x, y⟩ := pr
    intro h
    have hx := h x y (List.mem_cons_self _ _)
    cases hcp : g.checkPair x y with
    | none => exact absurd hcp hx
    | some ms =>
      have hr := ih (fun a b hab => h a b (List.mem_cons_of_mem _ hab))
      cases hre : g.pairErrors rest with
      | none => exact absurd hre hr
      | some ms2 => simp [Graph.pairErrors, hcp, hre]

theorem typecheck_ne_none (g : Graph)
    (hfrom : ∀ e ∈ g.edges, isSinkKeyB g e.«from» = false) :
    g.typecheck ≠ none := by
  cases hp : g.paths with
  | none => exact absurd hp (paths_ne_none g)
  | some r =>
    cases r with
    | error es => simp [Graph.typecheck, hp]
    | ok ps =>
      have hpairs : ∀ x y, (x, y) ∈ ps.flatMap pathPairs → g.checkPair x y ≠ none := by
        intro x y hxy
        rcases List.mem_flatMap.mp hxy with ⟨p, hpmem, hpair⟩
        have hch := paths_chain g ps hp p hpmem
        have hstep := chain'_pathPairs p hch x y hpair
        refine checkPair_ne_none g x y hstep ?_
        obtain ⟨⟨e, he, hef, _⟩, _⟩ := hstep
        exact hef ▸ hfrom e he
      have h := pairErrors_ne_none g _ hpairs
      cases hpe : g.pairErrors (ps.flatMap pathPairs) with
      | none => exact absurd hpe h
      | some errs =>
        by_cases he : errs = [] <;> simp [Graph.typecheck, hp, hpe, he]

theorem checkInputsAux_ne_none (g : Graph) :
    ∀ (es : List Edge), (∀ e ∈ es, isInputNodeB g e.«to» = true) →
      g.checkInputsAux es ≠ none := by
  intro es
  induction es with
  | nil => intro _; simp [Graph.checkInputsAux]
  | cons e rest ih =>
    intro h
    have he := h e (List.mem_cons_self _ _)
    have hr := ih (fun e2 h2 => h e2 (List.mem_cons_of_mem _ h2))
    by_cases hv : e.«from» ∈ g.validInputs
    · simpa [Graph.checkInputsAux, hv] using hr
    · cases hlt : lookupNode g.nodes e.«to» with
      | none => simp [isInputNodeB, hlt] at he
      | some n =>
        cases n with
        | source ty => simp [isInputNodeB, hlt] at he
        | transform i o outs =>
          cases hre : g.checkInputsAux rest with
          | none => exact absurd hre hr
          | some ms => simp [Graph.checkInputsAux, hv, hlt, hre]
        | sink ty =>
          cases hre : g.checkInputsAux rest with
          | none => exact absurd hre hr
          | some ms => simp [Graph.checkInputsAux, hv, hlt, hre]

theorem check_inputs_ne_none (g : Graph)
    (hto : ∀ e ∈ g.edges, isInputNodeB g e.«to» = true) :
    g.check_inputs ≠ none := by
  have h := checkInputsAux_ne_none g g.edges hto
  cases hre : g.checkInputsAux g.edges with
  | none => exact absurd hre h
  | some errs =>
    by_cases he : errs = [] <;> simp [Graph.check_inputs, hre, he]

/-! Shape of the collected mismatch diagnostics. -/

theorem kindMismatch_true_iff (t1 t2 : DataType) :
    kindMismatch t1 t2 = true ↔ t1 ≠ t2 ∧ t1 ≠ DataType.any ∧ t2 ≠ DataType.any := by
  cases t1 <;> cases t2 <;> decide

theorem checkPair_shape (g : Graph) (x y : ComponentKey) (msgs : List String)
    (h : g.checkPair x y = some msgs) :
    msgs = [] ∨ ∃ t1 t2, kindMismatch t1 t2 = true ∧ msgs = [mismatchMsg x t1 y t2] := by
  cases hlx : lookupNode g.nodes x with
  | none =>
    rw [Graph.checkPair, hlx] at h
    simp only [Option.some.injEq] at h
    exact Or.inl h.symm
  | some nx =>
    cases hly : lookupNode g.nodes y with
    | none =>
      rw [Graph.checkPair, hlx, hly] at h
      cases nx <;> simp only [Option.some.injEq] at h <;> exact Or.inl h.symm
    | some ny =>
      rw [Graph.checkPair, hlx, hly] at h
      cases nx with
      | source t1 =>
        cases ny with
        | source ty => exact absurd h (by simp)
        | transform t2 o2 outs2 =>
          dsimp only at h
          by_cases hk : kindMismatch t1 t2 = true
          · rw [if_pos hk] at h
            simp only [Option.some.injEq] at h
            exact Or.inr ⟨t1, t2, hk, h.symm⟩
          · rw [if_neg hk] at h
            simp only [Option.some.injEq] at h
            exact Or.inl h.symm
        | sink t2 =>
          dsimp only at h
          by_cases hk : kindMismatch t1 t2 = true
          · rw [if_pos hk] at h
            simp only [Option.some.injEq] at h
            exact Or.inr ⟨t1, t2, hk, h.symm⟩
          · rw [if_neg hk] at h
            simp only [Option.some.injEq] at h
            exact Or.inl h.symm
      | transform i1 t1 outs1 =>
        cases ny with
        | source ty => exact absurd h (by simp)
        | transform t2 o2 outs2 =>
          dsimp only at h
          by_cases hk : kindMismatch t1 t2 = true
          · rw [if_pos hk] at h
            simp only [Option.some.injEq] at h
            exact Or.inr ⟨t1, t2, hk, h.symm⟩
          · rw [if_neg hk] at h
            simp only [Option.some.injEq] at h
            exact Or.inl h.symm
        | sink t2 =>
          dsimp only at h
          by_cases hk : kindMismatch t1 t2 = true
          · rw [if_pos hk] at h
            simp only [Option.some.injEq] at h
            exact Or.inr ⟨t1, t2, hk, h.symm⟩
          · rw [if_neg hk] at h
            simp only [Option.some.injEq] at h
            exact Or.inl h.symm
      | sink t1 => cases ny <;> exact absurd h (by simp)

theorem pairErrors_shape (g : Graph) :
    ∀ (prs : List (ComponentKey × ComponentKey)) (errs : List String),
      g.pairErrors prs = some errs →
      ∀ m ∈ errs, ∃ x t1 y t2, kindMismatch t1 t2 = true ∧ m = mismatchMsg x t1 y t2 := by
  intro prs
  induction prs with
  | nil =>
    intro errs h
    simp only [Graph.pairErrors, Option.some.injEq] at h
    subst h
    simp
  | cons pr rest ih =>
    obtain ⟨x, y⟩ := pr
    intro errs h
    cases hcp : g.checkPair x y with
    | none => rw [Graph.pairErrors, hcp] at h; exact absurd h (by simp)
    | some ms =>
      cases hre : g.pairErrors rest with
      | none => rw [Graph.pairErrors, hcp, hre] at h; exact absurd h (by simp)
      | some ms2 =>
        rw [Graph.pairErrors, hcp, hre] at h
        simp only [Option.some.injEq] at h
        subst h
        intro m hm
        rcases List.mem_append.mp hm with h1 | h2
        · rcases checkPair_shape g x y ms hcp with hnil | ⟨t1, t2, hk, hms⟩
          · rw [hnil] at h1; simp at h1
          · rw [hms, List.mem_singleton] at h1
            exact ⟨x, t1, y, t2, hk, h1⟩
        · exact ih ms2 hre m h2

theorem typecheck_mismatch_char (g : Graph) (es : List String)
    (hps : ∃ ps, g.paths = some (Except.ok ps))
    (h : g.typecheck = some (Except.error es)) :
    es ≠ [] ∧ es.Sorted (· ≤ ·) ∧ es.Nodup ∧
      ∀ m ∈ es, ∃ x t1 y t2, kindMismatch t1 t2 = true ∧ m = mismatchMsg x t1 y t2 := by
  obtain ⟨ps, hp⟩ := hps
  rw [Graph.typecheck, hp] at h
  dsimp only at h
  cases hpe : g.pairErrors (ps.flatMap pathPairs) with
  | none => rw [hpe] at h; exact absurd h (by simp)
  | some errs =>
    rw [hpe] at h
    dsimp only at h
    by_cases he : errs = []
    · rw [if_pos he] at h
      exact absurd h (by simp)
    · rw [if_neg he] at h
      simp only [Option.some.injEq, Except.error.injEq] at h
      subst h
      refine ⟨sortDedup_ne_nil errs he, sortDedup_sorted errs, sortDedup_nodup errs, ?_⟩
      intro m hm
      exact pairErrors_shape g _ errs hpe m ((mem_sortDedup errs m).mp hm)

/-! `check_inputs` against the spec-side description of §4.4. -/

theorem validInputs_mem_iff (g : Graph) (k : ComponentKey) :
    k ∈ g.validInputs ↔ validOutputsSpecB g k = true := by
  rw [Graph.validInputs, List.mem_flatMap, validOutputsSpecB, List.any_eq_true]
  constructor
  · rintro ⟨p, hp, hk⟩
    refine ⟨p, hp, ?_⟩
    obtain ⟨k1, n⟩ := p
    cases n with
    | source ty =>
      dsimp only at hk ⊢
      rw [List.mem_singleton] at hk
      simp [hk]
    | transform i o outs =>
      dsimp only at hk ⊢
      rw [List.mem_cons] at hk
      rcases hk with h1 | h2
      · simp [h1.symm]
      · rcases List.mem_map.mp h2 with ⟨n, hn, h3⟩
        have ha : outs.any (fun n => decide (k = ComponentKey.join k1 n)) = true :=
          List.any_eq_true.mpr ⟨n, hn, by simp [h3.symm]⟩
        rw [ha, Bool.or_true]
    | sink ty =>
      dsimp only at hk
      simp at hk
  · rintro ⟨p, hp, hk⟩
    refine ⟨p, hp, ?_⟩
    obtain ⟨k1, n⟩ := p
    cases n with
    | source ty =>
      dsimp only at hk ⊢
      rw [List.mem_singleton]
      have h1 : k1 = k := by simpa using hk
      exact h1.symm
    | transform i o outs =>
      dsimp only at hk ⊢
      rw [List.mem_cons]
      by_cases h1 : k1 = k
      · exact Or.inl h1.symm
      · have h1d : decide (k1 = k) = false := by simp [h1]
        rw [h1d, Bool.false_or] at hk
        rcases List.any_eq_true.mp hk with ⟨n, hn, h3⟩
        have h3' : k = ComponentKey.join k1 n := by simpa using h3
        exact Or.inr (List.mem_map.mpr ⟨n, hn, h3'.symm⟩)
    | sink ty =>
      dsimp only at hk
      simp at hk

theorem checkInputsAux_spec (g : Graph) :
    ∀ (es : List Edge), (∀ e ∈ es, isInputNodeB g e.«to» = true) →
      g.checkInputsAux es = some (es.filterMap (fun e =>
        if validOutputsSpecB g e.«from» then none
        else (roleOf g e.«to»).map (fun r => inputErrorMsg e.«from» r e.«to»))) := by
  intro es
  induction es with
  | nil => intro _; rfl
  | cons e rest ih =>
    intro h
    have hrest := ih (fun e2 h2 => h e2 (List.mem_cons_of_mem _ h2))
    by_cases hv : e.«from» ∈ g.validInputs
    · have hvb : validOutputsSpecB g e.«from» = true := (validInputs_mem_iff g _).mp hv
      rw [Graph.checkInputsAux, if_pos hv, hrest, List.filterMap_cons, hvb]
      simp
    · have hvb : validOutputsSpecB g e.«from» = false := by
        cases hbool : validOutputsSpecB g e.«from» with
        | false => rfl
        | true => exact absurd ((validInputs_mem_iff g _).mpr hbool) hv
      cases hlt : lookupNode g.nodes e.«to» with
      | none =>
        have hc := h e (List.mem_cons_self _ _)
        simp [isInputNodeB, hlt] at hc
      | some n =>
        cases n with
        | source ty =>
          have := h e (List.mem_cons_self _ _)
          simp [isInputNodeB, hlt] at this
        | transform i o outs =>
          rw [Graph.checkInputsAux, if_neg hv, hlt, hrest, List.filterMap_cons, hvb]
          simp [roleOf, hlt]
        | sink ty =>
          rw [Graph.checkInputsAux, if_neg hv, hlt, hrest, List.filterMap_cons, hvb]
          simp [roleOf, hlt]

theorem check_inputs_spec (g : Graph)
    (hto : ∀ e ∈ g.edges, isInputNodeB g e.«to» = true) :
    g.check_inputs = some (if inputErrorsSpec g = [] then Except.ok ()
      else Except.error (inputErrorsSpec g)) := by
  have h := checkInputsAux_spec g g.edges hto
  have heq : g.edges.filterMap (fun e =>
      if validOutputsSpecB g e.«from» then none
      else (roleOf g e.«to»).map (fun r => inputErrorMsg e.«from» r e.«to»)) =
      inputErrorsSpec g := rfl
  rw [heq] at h
  rw [Graph.check_inputs, h]
  dsimp only
  by_cases hnil : inputErrorsSpec g = []
  · rw [if_pos hnil, if_pos hnil]
  · rw [if_neg hnil, if_neg hnil]

/-! Port registration (`add_transform_output`). -/

theorem lookupNode_updateFirst_self :
    ∀ (nodes : List (ComponentKey × Node)) (k : ComponentKey) (v : Node),
      lookupNode (updateFirst nodes k v) k = (lookupNode nodes k).map (fun _ => v) := by
  intro nodes k v
  induction nodes with
  | nil => rfl
  | cons p rest ih =>
    by_cases h : p.1 = k
    · rw [updateFirst, if_pos h, lookupNode, if_pos h, lookupNode, if_pos h]
      rfl
    · rw [updateFirst, if_neg h, lookupNode, if_neg h, lookupNode, if_neg h]
      exact ih

theorem lookupNode_updateFirst_other :
    ∀ (nodes : List (ComponentKey × Node)) (k : ComponentKey) (v : Node)
      (k2 : ComponentKey), k2 ≠ k →
      lookupNode (updateFirst nodes k v) k2 = lookupNode nodes k2 := by
  intro nodes k v k2 hne
  induction nodes with
  | nil => rfl
  | cons p rest ih =>
    by_cases h : p.1 = k
    · have h2 : ¬ p.1 = k2 := fun hc => hne (hc ▸ h ▸ rfl)
      rw [updateFirst, if_pos h, lookupNode, lookupNode, if_neg h2]
      simp only [if_neg h2]
    · rw [updateFirst, if_neg h, lookupNode, lookupNode]
      by_cases h2 : p.1 = k2
      · rw [if_pos h2, if_pos h2]
      · rw [if_neg h2, if_neg h2]
        exact ih

/-! Graphs with no sink node. -/

theorem sinkKeys_eq_nil (g : Graph)
    (h : ∀ p ∈ g.nodes, isSinkNodeB p.2 = false) : g.sinkKeys = [] := by
  rw [Graph.sinkKeys, List.filterMap_eq_nil_iff]
  intro p hp
  have hb := h p hp
  cases hn : p.2 with
  | source ty => rfl
  | transform i o outs => rfl
  | sink ty => rw [hn] at hb; exact absurd hb (by simp [isSinkNodeB])

theorem paths_of_no_sink (g : Graph) (h : g.sinkKeys = []) :
    g.paths = some (Except.ok []) := by
  rw [Graph.paths, h]
  rfl

theorem typecheck_of_no_sink (g : Graph) (h : g.sinkKeys = []) :
    g.typecheck = some (Except.ok ()) := by
  rw [Graph.typecheck, paths_of_no_sink g h]
  rfl

/-! The claims. -/

/-- C1, counterexample: in the three-node cycle `A → B → C → A`, attaching
the sink to `B` yields a single cycle diagnostic whose chain is
`[ B -> C -> A -> B ]`, not the claimed `[ A -> B -> C -> A ]`: the chain
does depend on which cycle node the sink attaches to. -/
theorem c1_counterexample :
    (gC1 "B").paths = some (Except.error
      ["Cyclic dependency detected in the chain [ B -> C -> A -> B ]"]) ∧
    "Cyclic dependency detected in the chain [ B -> C -> A -> B ]" ≠
      "Cyclic dependency detected in the chain [ A -> B -> C -> A ]" :=
  ⟨rfl, by decide⟩

/-- C1, amended: for the cycle `A → B → C → A`, path enumeration fails
with exactly one cycle diagnostic and `typecheck` surfaces the same
diagnostic set, but the chain is the rotation of the cycle starting and
ending at the node the sink attaches to: `[ A -> B -> C -> A ]` for `A`,
`[ B -> C -> A -> B ]` for `B`, `[ C -> A -> B -> C ]` for `C`. -/
theorem c1_amended :
    ((gC1 "A").paths = some (Except.error
        ["Cyclic dependency detected in the chain [ A -> B -> C -> A ]"]) ∧
      (gC1 "A").typecheck = some (Except.error
        ["Cyclic dependency detected in the chain [ A -> B -> C -> A ]"])) ∧
    ((gC1 "B").paths = some (Except.error
        ["Cyclic dependency detected in the chain [ B -> C -> A -> B ]"]) ∧
      (gC1 "B").typecheck = some (Except.error
        ["Cyclic dependency detected in the chain [ B -> C -> A -> B ]"])) ∧
    ((gC1 "C").paths = some (Except.error
        ["Cyclic dependency detected in the chain [ C -> A -> B -> C ]"]) ∧
      (gC1 "C").typecheck = some (Except.error
        ["Cyclic dependency detected in the chain [ C -> A -> B -> C ]"])) :=
  ⟨⟨rfl, rfl⟩, ⟨rfl, rfl⟩, ⟨rfl, rfl⟩⟩

/-- C2, counterexample: `gSinkChain` (source `src` → sink `s1` → sink
`s2`) is acyclic, yet `typecheck` reaches the `unreachable!` arm (the
pair `(s1, s2)` has a sink producer), modelled as `none`. -/
theorem c2_counterexample :
    acyclicB gSinkChain = true ∧ gSinkChain.typecheck = none :=
  ⟨rfl, rfl⟩

/-- C2, amended: on an acyclic graph in which every edge's `to` resolves
to a transform or sink and no edge's `from` resolves to a sink,
`typecheck` and `check_inputs` complete normally (never `none`). -/
theorem c2_amended (g : Graph) (_hacyc : acyclicB g = true)
    (hto : ∀ e ∈ g.edges, isInputNodeB g e.«to» = true)
    (hfrom : ∀ e ∈ g.edges, isSinkKeyB g e.«from» = false) :
    g.typecheck ≠ none ∧ g.check_inputs ≠ none :=
  ⟨typecheck_ne_none g hfrom, check_inputs_ne_none g hto⟩

/-- C2, witness: the amended theorem applied to the concrete acyclic
graph `gLM`. -/
theorem c2_witness : gLM.typecheck ≠ none ∧ gLM.check_inputs ≠ none :=
  c2_amended gLM (by rfl) (by decide) (by decide)

/-- C3: whenever path enumeration fails, the carried message list is
nonempty, sorted, duplicate-free, and `typecheck` short-circuits,
returning exactly that list. -/
theorem c3_cycle_failure (g : Graph) (es : List String)
    (hp : g.paths = some (Except.error es)) :
    es ≠ [] ∧ es.Sorted (· ≤ ·) ∧ es.Nodup ∧
      g.typecheck = some (Except.error es) := by
  have htc : g.typecheck = some (Except.error es) := by
    simp [Graph.typecheck, hp]
  cases ha : g.pathsAux g.sinkKeys with
  | none => rw [Graph.paths, ha] at hp; exact absurd hp (by simp)
  | some pr =>
    obtain ⟨errs, ps⟩ := pr
    rw [Graph.paths, ha] at hp
    dsimp only at hp
    by_cases he : errs = []
    · rw [if_pos he] at hp
      exact absurd hp (by simp)
    · rw [if_neg he] at hp
      simp only [Option.some.injEq, Except.error.injEq] at hp
      subst hp
      exact ⟨sortDedup_ne_nil errs he, sortDedup_sorted errs, sortDedup_nodup errs, htc⟩

/-- C3, witness: the repository's cyclic test graph `gCyc`. -/
theorem c3_witness :
    gCyc.typecheck = some (Except.error
      ["Cyclic dependency detected in the chain [ three -> one -> two -> three ]"]) :=
  (c3_cycle_failure gCyc
    ["Cyclic dependency detected in the chain [ three -> one -> two -> three ]"]
    rfl).2.2.2

/-- C4: the mismatch condition of `typecheck` is false exactly when the
two kinds are equal or one of them is `Any`; consequently every nonempty
pair diagnostic comes from two kinds that are both not `Any`. -/
theorem c4_compat :
    (∀ t1 t2, kindMismatch t1 t2 = false ↔
      (t1 = t2 ∨ t1 = DataType.any ∨ t2 = DataType.any)) ∧
    (∀ (g : Graph) (x y : ComponentKey) (msgs : List String),
      g.checkPair x y = some msgs → msgs ≠ [] →
      ∃ t1 t2, t1 ≠ DataType.any ∧ t2 ≠ DataType.any ∧
        msgs = [mismatchMsg x t1 y t2]) := by
  constructor
  · intro t1 t2
    cases t1 <;> cases t2 <;> decide
  · intro g x y msgs h hne
    rcases checkPair_shape g x y msgs h with hnil | ⟨t1, t2, hk, hmsgs⟩
    · exact absurd hnil hne
    · have hk' := (kindMismatch_true_iff t1 t2).mp hk
      exact ⟨t1, t2, hk'.2.1, hk'.2.2, hmsgs⟩

/-- C4, witness: `Log` into `Any` is compatible, by the characterization. -/
theorem c4_witness : kindMismatch DataType.log DataType.any = false :=
  (c4_compat.1 DataType.log DataType.any).mpr (Or.inr (Or.inr rfl))

/-- C5: `typecheck` on the Log-source/Metric-sink graph returns exactly
the single diagnostic `Data type mismatch between in (Log) and out
(Metric)`; in general, on a cycle-free graph every failure list is
nonempty, sorted, duplicate-free, and each message is a mismatch
diagnostic for an adjacent pair. -/
theorem c5_mismatch :
    gLM.typecheck = some (Except.error
      ["Data type mismatch between in (Log) and out (Metric)"]) ∧
    (∀ (g : Graph) (es : List String),
      g.typecheck = some (Except.error es) →
      (∃ ps, g.paths = some (Except.ok ps)) →
      es ≠ [] ∧ es.Sorted (· ≤ ·) ∧ es.Nodup ∧
        ∀ m ∈ es, ∃ x t1 y t2, kindMismatch t1 t2 = true ∧
          m = mismatchMsg x t1 y t2) :=
  ⟨rfl, fun g es h hps => typecheck_mismatch_char g es hps h⟩

/-- C5, witness: the general part applied to `gLM` itself. -/
theorem c5_witness :
    (["Data type mismatch between in (Log) and out (Metric)"] : List String) ≠ [] :=
  (c5_mismatch.2 gLM ["Data type mismatch between in (Log) and out (Metric)"]
    rfl ⟨[["in", "out"]], rfl⟩).1

/-- C6, counterexample: a transform declaring itself as its own input
whose node is not backward-reachable from any sink (here there is no sink
at all) makes path enumeration succeed with no diagnostic, so a self-loop
does not by itself cause a failure. -/
theorem c6_counterexample :
    Edge.mk "X" "X" ∈ gSelfFree.edges ∧
    lookupNode gSelfFree.nodes "X" =
      some (Node.transform DataType.log DataType.log []) ∧
    gSelfFree.paths = some (Except.ok []) :=
  ⟨by decide, rfl, rfl⟩

/-- C6, amended: when a sink's backward traversal reaches a transform
that declares its own key as an input (the repository's self-loop
scenario, with arbitrary distinct keys), path enumeration fails with
exactly the two-element diagnostic `[ x -> x ]`, the node's key at both
ends. -/
theorem c6_amended (x out : ComponentKey) (h : x ≠ out) :
    (gSelf x out).paths = some (Except.error [cycleMsg [x, x]]) := by
  have hnodes : (gSelf x out).nodes = [(x, Node.transform DataType.log DataType.log []),
      (out, Node.sink DataType.log)] := by
    simp [gSelf, Graph.add_source, Graph.add_transform, Graph.add_sink, Graph.empty,
      insertNode, h]
  have hedges : (gSelf x out).edges = [Edge.mk x x, Edge.mk x out] := by
    simp [gSelf, Graph.add_source, Graph.add_transform, Graph.add_sink, Graph.empty]
  have hsinks : (gSelf x out).sinkKeys = [out] := by
    simp [Graph.sinkKeys, hnodes]
  have hfuel : (gSelf x out).fuel = 4 := by
    simp [Graph.fuel, hedges]
  have hlookx : lookupNode (gSelf x out).nodes x =
      some (Node.transform DataType.log DataType.log []) := by
    rw [hnodes]; simp [lookupNode]
  have hlookout : lookupNode (gSelf x out).nodes out = some (Node.sink DataType.log) := by
    rw [hnodes]; simp [lookupNode, h, Ne.symm h]
  have hfilx : (gSelf x out).edges.filter (fun e => e.«to» = x) = [Edge.mk x x] := by
    rw [hedges]; simp [List.filter, Ne.symm h]
  have hfilout : (gSelf x out).edges.filter (fun e => e.«to» = out) = [Edge.mk x out] := by
    rw [hedges]; simp [List.filter, h]
  have h2 : pathsRec (gSelf x out) 2 x [out, x] =
      some (Except.error (cycleMsg [x, x])) := by
    rw [show (2 : Nat) = 1 + 1 from rfl, pathsRec_succ, if_pos (by simp)]
    rw [show firstIdx [out, x] x = 1 from by simp [firstIdx, Ne.symm h]]
    simp
  have h3 : pathsRec (gSelf x out) 3 x [out] =
      some (Except.error (cycleMsg [x, x])) := by
    rw [show (3 : Nat) = 2 + 1 from rfl, pathsRec_succ, if_neg (by simp [h]), hlookx]
    dsimp only
    rw [hfilx]
    rw [pathsRecInputs, show (List.map (fun e => e.«from») [Edge.mk x x]) = [x] from rfl,
      pathsRecList, show ([out] : List ComponentKey) ++ [x] = [out, x] from rfl, h2]
  have h4 : pathsRec (gSelf x out) 4 out [] =
      some (Except.error (cycleMsg [x, x])) := by
    rw [show (4 : Nat) = 3 + 1 from rfl, pathsRec_succ, if_neg (by simp), hlookout]
    dsimp only
    rw [hfilout]
    rw [pathsRecInputs, show (List.map (fun e => e.«from») [Edge.mk x out]) = [x] from rfl,
      pathsRecList, show ([] : List ComponentKey) ++ [out] = [out] from rfl, h3]
  rw [Graph.paths, hsinks, Graph.pathsAux, hfuel, h4]
  dsimp only
  rw [Graph.pathsAux]
  simp [sortDedup, dedupConsec, List.insertionSort, List.orderedInsert]

/-- C6, witness: the amended theorem at the repository's own test keys. -/
theorem c6_witness :
    (gSelf "in" "out").paths = some (Except.error
      ["Cyclic dependency detected in the chain [ in -> in ]"]) :=
  c6_amended "in" "out" (by decide)

/-- C7: `check_inputs` recognizes as valid exactly the spec's output set
(source keys, transform keys, one dotted key per named port, nothing for
sinks), and returns the per-edge invalid-input diagnostics in edge
declaration order without deduplication, succeeding exactly on the empty
collection. -/
theorem c7_check_inputs (g : Graph)
    (hto : ∀ e ∈ g.edges, isInputNodeB g e.«to» = true) :
    (∀ k, k ∈ g.validInputs ↔ validOutputsSpecB g k = true) ∧
    g.check_inputs = some (if inputErrorsSpec g = [] then Except.ok ()
      else Except.error (inputErrorsSpec g)) :=
  ⟨fun k => validInputs_mem_iff g k, check_inputs_spec g hto⟩

/-- C7, witness: the repository's named-port graph: the unregistered port
`log_to_log.not_errors` yields exactly one diagnostic. -/
theorem c7_witness :
    gPorts.check_inputs = some (Except.error
      ["Input \"log_to_log.not_errors\" for sink \"bad_log_sink\" doesn't match any components."]) := by
  have h := (c7_check_inputs gPorts (by decide)).2
  rw [h]
  rfl

/-- C8: registering a named output port appends the name to an existing
transform's port list, leaving edges and every other node unchanged, and
panics (`none`) when the node is missing or not a transform. -/
theorem c8_add_output (g : Graph) (id : ComponentKey) (name : String) :
    (∀ i o outs, lookupNode g.nodes id = some (Node.transform i o outs) →
      ∃ g2, g.add_transform_output id name = some g2 ∧ g2.edges = g.edges ∧
        lookupNode g2.nodes id = some (Node.transform i o (outs ++ [name])) ∧
        ∀ k, k ≠ id → lookupNode g2.nodes k = lookupNode g.nodes k) ∧
    ((∀ i o outs, lookupNode g.nodes id ≠ some (Node.transform i o outs)) →
      g.add_transform_output id name = none) := by
  constructor
  · intro i o outs h
    refine ⟨⟨updateFirst g.nodes id (Node.transform i o (outs ++ [name])), g.edges⟩,
      ?_, rfl, ?_, ?_⟩
    · rw [Graph.add_transform_output, h]
    · show lookupNode (updateFirst g.nodes id (Node.transform i o (outs ++ [name]))) id = _
      rw [lookupNode_updateFirst_self, h]
      rfl
    · intro k hk
      exact lookupNode_updateFirst_other g.nodes id _ k hk
  · intro hno
    cases hl : lookupNode g.nodes id with
    | none => rw [Graph.add_transform_output, hl]
    | some n =>
      cases n with
      | source ty => rw [Graph.add_transform_output, hl]
      | transform i o outs => exact absurd hl (hno i o outs)
      | sink ty => rw [Graph.add_transform_output, hl]

/-- C8, witness: registering a port on the transform `t` of `gT`
succeeds. -/
theorem c8_witness : gT.add_transform_output "t" "errors" ≠ none := by
  obtain ⟨g2, hg2, -, -, -⟩ :=
    (c8_add_output gT "t" "errors").1 DataType.log DataType.log [] rfl
  rw [hg2]
  simp

/-- C9: path enumeration starts only from sinks: a graph with no sink
node yields `Ok` with no paths from `paths` and `Ok` from `typecheck`,
whatever its edges; concretely, the cycle `A ↔ B` of `gCycUnreach` is not
backward-reachable from its only sink and produces no diagnostic. -/
theorem c9_no_sink :
    (∀ g : Graph, (∀ p ∈ g.nodes, isSinkNodeB p.2 = false) →
      g.paths = some (Except.ok []) ∧ g.typecheck = some (Except.ok ())) ∧
    (Edge.mk "B" "A" ∈ gCycUnreach.edges ∧ Edge.mk "A" "B" ∈ gCycUnreach.edges ∧
      gCycUnreach.paths = some (Except.ok [["src", "out"]]) ∧
      gCycUnreach.typecheck = some (Except.ok ())) := by
  constructor
  · intro g h
    have hs := sinkKeys_eq_nil g h
    exact ⟨paths_of_no_sink g hs, typecheck_of_no_sink g hs⟩
  · exact ⟨by decide, by decide, rfl, rfl⟩

/-- C9, witness: the sink-free cyclic graph `gNoSink`. -/
theorem c9_witness :
    gNoSink.paths = some (Except.ok []) ∧ gNoSink.typecheck = some (Except.ok ()) :=
  c9_no_sink.1 gNoSink (by decide)

/-- C10: a key absent from the node mapping (as a transform's compound
port key is) makes `typecheck` skip any pair containing it and ends the
backward traversal as one complete path; concretely, in `gPortMismatch`
the named-port edge `t.errors → out` carries mismatched kinds (Log into
Metric) yet `typecheck` reports nothing. -/
theorem c10_ports_skipped :
    (∀ (g : Graph) (x y : ComponentKey),
      (lookupNode g.nodes x = none ∨ lookupNode g.nodes y = none) →
      g.checkPair x y = some []) ∧
    (∀ (g : Graph) (fuel : Nat) (node : ComponentKey) (path : List ComponentKey),
      node ∉ path → lookupNode g.nodes node = none →
      pathsRec g (fuel + 1) node path = some (Except.ok [(path ++ [node]).reverse])) ∧
    (lookupNode gPortMismatch.nodes "t.errors" = none ∧
      Edge.mk "t.errors" "out" ∈ gPortMismatch.edges ∧
      kindMismatch DataType.log DataType.metric = true ∧
      gPortMismatch.paths = some (Except.ok [["t.errors", "out"]]) ∧
      gPortMismatch.typecheck = some (Except.ok ())) := by
  refine ⟨?_, ?_, rfl, by decide, rfl, rfl, rfl⟩
  · intro g x y hxy
    rcases hxy with hx | hy
    · cases hly : lookupNode g.nodes y with
      | none => rw [Graph.checkPair, hx, hly]
      | some ny => rw [Graph.checkPair, hx, hly]
    · cases hlx : lookupNode g.nodes x with
      | none => rw [Graph.checkPair, hlx, hy]
      | some nx => rw [Graph.checkPair, hlx, hy]
  · intro g fuel node path hmem hlook
    rw [pathsRec_succ, if_neg hmem, hlook]

/-- C10, witness: the skip rule applied to the dangling pair of
`gPortMismatch`. -/
theorem c10_witness : gPortMismatch.checkPair "t.errors" "out" = some [] :=
  c10_ports_skipped.1 gPortMismatch "t.errors" "out" (Or.inl rfl)

end VectorCfg
